import Mathlib

/-!
Verification of the Wei/Ether unit-conversion engine of go-etherutils
(`conversion.go`): `StringToWei`, `WeiToString`, `UnitToMultiplier` and
their helpers, shallowly embedded over `Nat`/`Int` and `List Char`.

Conventions of the embedding:
* `big.Int` values are modelled as `ℤ` (amounts, which are non-negative,
  as `ℕ`); overflow never occurs since Go uses arbitrary precision.
* Go strings are modelled as `List Char` internally; the public entry
  points take and return Lean `String`s.
* A Go function returning `(T, error)` is modelled as `GoResult`:
  `ok` for a nil-error return, `err` for a non-nil error return (carrying
  the exact message the Go code formats), and `panic` for a runtime panic
  (nil-pointer dereference or out-of-range slice index).
-/

/-- Result of a Go call: normal return, error return, or runtime panic. -/
inductive GoResult (α : Type) where
  | ok (val : α)
  | err (msg : String)
  | panic
deriving DecidableEq

/-- Go byte predicate `'0' <= c && c <= '9'` used by `nat.scan` in base 10. -/
def goIsDigit (c : Char) : Bool := 48 ≤ c.toNat && c.toNat ≤ 57

/-- Numeric value of a decimal digit character. -/
def digitVal (c : Char) : ℕ := c.toNat - 48

/-- Value of a decimal digit string, accumulated most-significant first,
exactly as `nat.scan` accumulates consumed digits. -/
def strVal (l : List Char) : ℕ := l.foldl (fun a c => 10 * a + digitVal c) 0

/-- ASCII case folding of one character; models `strings.ToLower` on the
ASCII inputs relevant to unit names. -/
def charToLower (c : Char) : Char :=
  if 65 ≤ c.toNat ∧ c.toNat ≤ 90 then Char.ofNat (c.toNat + 32) else c

/-- Model of `strings.ToLower` (ASCII range). -/
def goToLower (s : String) : String := String.mk (s.data.map charToLower)

/-- Accumulator version of `strings.Split` restricted to a one-character
separator, which is how `StringToWei` uses it (`" "` and `"."`). -/
def splitOnCharAux (sep : Char) : List Char → List Char → List (List Char)
  | [], acc => [acc.reverse]
  | c :: rest, acc =>
    if c = sep then acc.reverse :: splitOnCharAux sep rest []
    else splitOnCharAux sep rest (c :: acc)

/-- Model of `strings.Split(s, sep)` for a one-character separator. -/
def splitOnChar (sep : Char) (l : List Char) : List (List Char) :=
  splitOnCharAux sep l []

/-- Model of `strings.TrimRight(s, "0")`. -/
def trimTrailingZeros (l : List Char) : List Char :=
  (l.reverse.dropWhile (fun c => c = '0')).reverse

/-- Sign scanning of `Int.scan`: consume one leading `+` or `-`. -/
def scanSign : List Char → Bool × List Char
  | [] => (false, [])
  | c :: rest =>
    if c = '+' then (false, rest)
    else if c = '-' then (true, rest)
    else (false, c :: rest)

/-- Model of `big.Int.SetString(s, 10)` keeping the success flag: an
optional sign followed by at least one decimal digit, with the entire
string consumed (underscores are rejected when an explicit base is given).
Go sets the sign only when the magnitude is nonzero, which coincides with
signed integer negation on `ℤ`. -/
def setString10 (l : List Char) : Option ℤ :=
  let sr := scanSign l
  let ds := sr.2.takeWhile goIsDigit
  if ds = [] ∨ sr.2.dropWhile goIsDigit ≠ [] then none
  else some (if sr.1 then -(strVal ds : ℤ) else (strVal ds : ℤ))

/-- Value left in the receiver by `result.SetString(input, 10)` when the
returned success flag is ignored, as in the bare-number branch of
`StringToWei`: `nat.scan` stores the value of the maximal digit prefix in
the receiver before `setFromScanner` reports failure, and the sign is
applied only when at least one digit was consumed (with a zero magnitude
the sign is dropped, which `ℤ` negation of `0` also models). -/
def setString10Scan (l : List Char) : ℤ :=
  let sr := scanSign l
  let ds := sr.2.takeWhile goIsDigit
  if sr.1 then -(strVal ds : ℤ) else (strVal ds : ℤ)

/-- Hexadecimal digit predicate of `nat.scan`. -/
def goIsHexDigit (c : Char) : Bool :=
  goIsDigit c || (97 ≤ c.toNat && c.toNat ≤ 102) || (65 ≤ c.toNat && c.toNat ≤ 70)

/-- Hexadecimal digit value. -/
def hexVal (c : Char) : ℕ :=
  if goIsDigit c then c.toNat - 48
  else if 97 ≤ c.toNat then c.toNat - 87
  else c.toNat - 55

/-- Octal digit predicate. -/
def goIsOctDigit (c : Char) : Bool := 48 ≤ c.toNat && c.toNat ≤ 55

/-- Binary digit predicate. -/
def goIsBinDigit (c : Char) : Bool := c.toNat = 48 || c.toNat = 49

/-- Value accumulated by `nat.scan` in base `b` over a run of digit or
underscore characters (base 0 allows `_` separators between digits;
underscores do not contribute to the value). -/
def runVal (base : ℕ) (digit : Char → Bool) (dval : Char → ℕ) (l : List Char) : ℕ :=
  ((l.takeWhile (fun c => digit c || c = '_')).filter (fun c => c ≠ '_')).foldl
    (fun a c => base * a + dval c) 0

/-- Separator placement check of `nat.scan`: an `_` may appear only where
the previous consumed character was a digit (or a base prefix, expressed
by the initial flag) and must be followed by a digit; `nat.scan` reports
`errInvalSep` otherwise (and `Int.scan` then leaves the sign unapplied). -/
def sepValid : Bool → List Char → Bool
  | _, [] => true
  | allowSep, c :: rest =>
    if c = '_' then allowSep && decide (rest.headD '_' ≠ '_') && sepValid false rest
    else sepValid true rest

/-- Magnitude and separator validity of the base-0 digit run of
`nat.scan`: the run is the maximal prefix of digits (of the active base)
and underscores; `afterPrefix` records whether a `0x`/`0b`/`0o` prefix
was just consumed, after which a separator is immediately legal. -/
def scanRun (base : ℕ) (digit : Char → Bool) (dval : Char → ℕ) (afterPrefix : Bool)
    (l : List Char) : ℕ × Bool :=
  (runVal base digit dval l,
   sepValid afterPrefix (l.takeWhile (fun c => digit c || c = '_')))

/-- Value left in the receiver by `decVal.SetString(trimmedDecimal, 0)`,
whose returns are discarded at the call site: an optional sign, then the
base-0 prefix rules of `nat.scan` (with `fracOk` false): `0x`/`0b`/`0o`
select base 16/2/8, and a bare leading `0` followed by any other
character selects base 8 — the legacy octal prefix, after which the
maximal run of octal digits and underscores is read (when no octal digit
follows, the prefix `0` is kept and the magnitude is 0, "interpret as
decimal 0" in the Go source); without a prefix the base is 10. On a scan
error (misplaced separator) `Int.scan` returns before applying the sign,
so the magnitude is kept unsigned; the full-consumption check only
affects the discarded success flag. -/
def setString0Scan (l : List Char) : ℤ :=
  let sr := scanSign l
  let neg := sr.1
  let r := sr.2
  let mb : ℕ × Bool :=
    if r.headD ' ' = '0' ∧ r.tail ≠ [] then
      let c := r.tail.headD ' '
      if c = 'x' ∨ c = 'X' then scanRun 16 goIsHexDigit hexVal true r.tail.tail
      else if c = 'b' ∨ c = 'B' then scanRun 2 goIsBinDigit digitVal true r.tail.tail
      else if c = 'o' ∨ c = 'O' then scanRun 8 goIsOctDigit digitVal true r.tail.tail
      else scanRun 8 goIsOctDigit digitVal true r.tail
    else scanRun 10 goIsDigit digitVal false r
  if mb.2 then (if neg then -(mb.1 : ℤ) else (mb.1 : ℤ)) else (mb.1 : ℤ)

/-- Model of `UnitToMultiplier` (conversion.go): case-fold the unit name
and match it against the fixed alias table; `none` models the
`Unknown unit` error return. Multipliers are positive, so `ℕ`. -/
def UnitToMultiplier (unit : String) : Option ℕ :=
  let u := goToLower unit
  if u = "" ∨ u = "wei" then some 1
  else if u = "ada" ∨ u = "kwei" ∨ u = "kilowei" then some 1000
  else if u = "babbage" ∨ u = "mwei" ∨ u = "megawei" then some 1000000
  else if u = "shannon" ∨ u = "gwei" ∨ u = "gigawei" then some 1000000000
  else if u = "szazbo" ∨ u = "micro" ∨ u = "microether" then some 1000000000000
  else if u = "finney" ∨ u = "milli" ∨ u = "milliether" then some 1000000000000000
  else if u = "ether" then some 1000000000000000000
  else if u = "einstein" ∨ u = "kilo" ∨ u = "kiloether" then some 1000000000000000000000
  else if u = "mega" ∨ u = "megaether" then some 1000000000000000000000000
  else if u = "giga" ∨ u = "gigaether" then some 1000000000000000000000000000
  else if u = "tera" ∨ u = "teraether" then some 1000000000000000000000000000000
  else none

/-- Model of `integerStringToWei`: parse the full numeric token with
`SetString(amount, 10)` (success flag checked here), look up the
multiplier, and multiply. -/
def integerStringToWei (amount unit : List Char) : GoResult ℤ :=
  match setString10 amount with
  | none =>
    GoResult.err ("Failed to parse numeric value of " ++ amount.asString ++ " " ++ unit.asString)
  | some number =>
    match UnitToMultiplier unit.asString with
    | none => GoResult.err ("Failed to parse unit of " ++ amount.asString ++ " " ++ unit.asString)
    | some multiplier => GoResult.ok (number * (multiplier : ℤ))

/-- The loop dividing the multiplier by ten once per trimmed fractional
digit (`multiplier.Div(multiplier, div)` repeated `len` times). Each
division is an exact or flooring division on a non-negative value. -/
def iterateDiv10 : ℕ → ℕ → ℕ
  | m, 0 => m
  | m, k + 1 => iterateDiv10 (m / 10) k

/-- Model of `decimalStringToWei`. Faithful quirks: only `parts[0]` and
`parts[1]` of the split are consulted (extra `.`-separated segments are
ignored); an empty integer part skips `integerStringToWei`, so the
`UnitToMultiplier` error discarded at the call site can actually occur,
leaving a nil multiplier that panics in `multiplier.Div` — but only when
the trimmed fraction is nonempty, since the empty case returns first. -/
def decimalStringToWei (amount unit : List Char) : GoResult ℤ :=
  let parts := splitOnChar '.' amount
  let p0 := parts.getD 0 []
  let p1 := parts.getD 1 []
  let intRes : GoResult ℤ :=
    if p0 ≠ [] then integerStringToWei p0 unit else GoResult.ok 0
  match intRes with
  | GoResult.err _ =>
    GoResult.err ("Failed to parse " ++ amount.asString ++ " " ++ unit.asString)
  | GoResult.panic => GoResult.panic
  | GoResult.ok intVal =>
    let multOpt := UnitToMultiplier unit.asString
    let trimmedDecimal := trimTrailingZeros p1
    if trimmedDecimal = [] then GoResult.ok intVal
    else
      match multOpt with
      | none => GoResult.panic
      | some multiplier =>
        let decVal := setString0Scan trimmedDecimal
        let multiplier2 := iterateDiv10 multiplier trimmedDecimal.length
        if multiplier2 = 0 then GoResult.err "Value resulted in fractional number of Wei"
        else GoResult.ok (intVal + (multiplier2 : ℤ) * decVal)

/-- Model of `StringToWei` on the character list of the input. -/
def stringToWeiL (input : List Char) : GoResult ℤ :=
  if input = [] then GoResult.err "Failed to parse empty value"
  else
    let branch : GoResult ℤ :=
      if input.contains ' ' then
        let s := splitOnChar ' ' input
        if s.length ≠ 2 then GoResult.err ("Unknown format of " ++ input.asString)
        else if (s.getD 0 []).contains '.' then decimalStringToWei (s.getD 0 []) (s.getD 1 [])
        else integerStringToWei (s.getD 0 []) (s.getD 1 [])
      else GoResult.ok (setString10Scan input)
    match branch with
    | GoResult.ok result =>
      if result < 0 then GoResult.err "Value resulted in negative number of Wei"
      else GoResult.ok result
    | GoResult.err m => GoResult.err m
    | GoResult.panic => GoResult.panic

/-- Public entry point `StringToWei`. -/
def StringToWei (input : String) : GoResult ℤ := stringToWeiL input.data

/-- The `metricUnits` label table (11 entries, indices 0 through 10). -/
def metricUnits : List String :=
  ["Wei", "KWei", "MWei", "GWei", "Microether", "Milliether", "Ether",
   "Kiloether", "Megaether", "Gigaether", "Teraether"]

/-- Step 1 of `WeiToString` with explicit fuel (the value shrinks by a
factor of 1000 each iteration, so `fuel = v` always suffices): while the
value is at least 1000 and divisible by 1000, divide and count a tier. -/
def reduceTiersAux : ℕ → ℕ → ℕ × ℕ
  | 0, v => (v, 0)
  | fuel + 1, v =>
    if 1000 ≤ v ∧ v % 1000 = 0 then
      let r := reduceTiersAux fuel (v / 1000)
      (r.1, r.2 + 1)
    else (v, 0)

/-- Step 1 of `WeiToString`: returns the reduced value and the number of
whole-thousand tiers stepped down (`postfixPos` after the loop). -/
def reduceTiers (v : ℕ) : ℕ × ℕ := reduceTiersAux v v

/-- One decimal digit character. -/
def digitChar (n : ℕ) : Char := Char.ofNat (48 + n)

/-- Decimal digit characters of `n`, most significant first, with fuel
(one digit is produced per step, so `n + 1` steps always suffice). -/
def natDigitsAux : ℕ → ℕ → List Char
  | 0, _ => []
  | fuel + 1, n =>
    if n < 10 then [digitChar n]
    else natDigitsAux fuel (n / 10) ++ [digitChar (n % 10)]

/-- Model of `big.Int.Text(10)` on a non-negative value. -/
def natRepr (n : ℕ) : List Char := natDigitsAux (n + 1) n

/-- The tier `WeiToString` finally prints (`postfixPos` when the label is
looked up): start from the step-1 tier, push large digit strings up one
tier per three digits, and clamp to 6 (ether) in standard mode when the
desired tier exceeds 3. -/
def weiDesiredTier (input : ℕ) (standard : Bool) : ℕ :=
  let p := (reduceTiers input).2
  let len := (natRepr (reduceTiers input).1).length
  let d0 := if 3 < len then p + len / 3 - (if len % 3 = 0 then 1 else 0) else p
  if 3 < d0 ∧ standard = true then 6 else d0

/-- The numeric part `WeiToString` prints: the digit string of the
reduced value, adjusted by the two tier-correction loops (three trailing
zeros appended per downward step, the decimal place moved three digits
per step), with the decimal point inserted and trailing fractional zeros
trimmed. `decimalPlace` is the Go `int`, so it lives in `ℤ`. -/
def weiNumberPart (input : ℕ) (standard : Bool) : List Char :=
  let v := (reduceTiers input).1
  let p := (reduceTiers input).2
  let outputValue := natRepr v
  let len := outputValue.length
  let d := weiDesiredTier input standard
  let outputValue2 := outputValue ++ List.replicate (3 * (p - d)) '0'
  let decimalPlace : ℤ := (len : ℤ) - 3 * ((d : ℤ) - (p : ℤ))
  let outputValue3 :=
    if decimalPlace ≤ 0 then
      '0' :: '.' :: (List.replicate (0 - decimalPlace).toNat '0' ++ outputValue2)
    else if decimalPlace < (outputValue2.length : ℤ) then
      outputValue2.take decimalPlace.toNat ++ '.' :: outputValue2.drop decimalPlace.toNat
    else outputValue2
  if outputValue3.contains '.' then trimTrailingZeros outputValue3 else outputValue3

/-- Model of `WeiToString`. The label lookup `metricUnits[postfixPos]`
panics when the final tier is out of range of the 11-entry table. -/
def WeiToString (input : ℕ) (standard : Bool) : GoResult String :=
  match metricUnits.get? (weiDesiredTier input standard) with
  | some unit => GoResult.ok ((weiNumberPart input standard).asString ++ " " ++ unit)
  | none => GoResult.panic

/-- Value held by the caller's `big.Int` argument after `WeiToString`
returns: the step-1 loop executes `input = input.Div(input, thousand)`,
which stores each quotient back into the caller's value, so what remains
is the fully reduced value (the later steps only build strings). -/
def weiToStringInputAfter (input : ℕ) (standard : Bool) : ℕ :=
  (reduceTiers input).1

/-! ## Basic facts about digits and digit-string values -/

lemma goIsDigit_iff {c : Char} : goIsDigit c = true ↔ 48 ≤ c.toNat ∧ c.toNat ≤ 57 := by
  simp [goIsDigit]

lemma digitVal_le {c : Char} (h : goIsDigit c = true) : digitVal c ≤ 9 := by
  rcases goIsDigit_iff.mp h with ⟨h1, h2⟩
  simp only [digitVal]
  omega

lemma goIsDigit_ne_of_lt {c : Char} {d : Char} (h : goIsDigit c = true)
    (hd : goIsDigit d = false) : c ≠ d := by
  intro he
  rw [he] at h
  simp [h] at hd

lemma strVal_nil : strVal [] = 0 := rfl

lemma foldl_strVal (l : List Char) (a : ℕ) :
    l.foldl (fun a c => 10 * a + digitVal c) a = a * 10 ^ l.length + strVal l := by
  induction l generalizing a with
  | nil => simp [strVal]
  | cons c t ih =>
    have hc : strVal (c :: t) = digitVal c * 10 ^ t.length + strVal t := by
      show t.foldl (fun a c => 10 * a + digitVal c) (10 * 0 + digitVal c) = _
      rw [ih]
      ring_nf
    show t.foldl (fun a c => 10 * a + digitVal c) (10 * a + digitVal c) = _
    rw [ih, hc]
    simp [List.length_cons]
    ring

lemma strVal_cons (c : Char) (t : List Char) :
    strVal (c :: t) = digitVal c * 10 ^ t.length + strVal t := by
  show t.foldl (fun a c => 10 * a + digitVal c) (10 * 0 + digitVal c) = _
  rw [foldl_strVal]
  ring_nf

lemma strVal_append (A B : List Char) :
    strVal (A ++ B) = strVal A * 10 ^ B.length + strVal B := by
  show (A ++ B).foldl (fun a c => 10 * a + digitVal c) 0 = _
  rw [List.foldl_append, foldl_strVal]
  rfl

lemma strVal_lt (l : List Char) (h : ∀ c ∈ l, goIsDigit c = true) :
    strVal l < 10 ^ l.length := by
  induction l with
  | nil => simp [strVal]
  | cons c t ih =>
    rw [strVal_cons]
    have h1 : digitVal c ≤ 9 := digitVal_le (h c (List.mem_cons_self c t))
    have h2 : strVal t < 10 ^ t.length := ih fun d hd => h d (List.mem_cons_of_mem c hd)
    have : (9 : ℕ) * 10 ^ t.length + 10 ^ t.length = 10 ^ (t.length + 1) := by ring
    calc digitVal c * 10 ^ t.length + strVal t
        < digitVal c * 10 ^ t.length + 10 ^ t.length := by omega
      _ ≤ 9 * 10 ^ t.length + 10 ^ t.length := by
          have := Nat.mul_le_mul_right (10 ^ t.length) h1
          omega
      _ = 10 ^ (t.length + 1) := this
      _ = 10 ^ (c :: t).length := by simp

lemma strVal_all_zero (l : List Char) (h : ∀ c ∈ l, c = '0') : strVal l = 0 := by
  induction l with
  | nil => rfl
  | cons c t ih =>
    rw [strVal_cons, h c (List.mem_cons_self c t)]
    rw [ih fun d hd => h d (List.mem_cons_of_mem c hd)]
    simp [digitVal]

lemma strVal_replicate_zero (n : ℕ) : strVal (List.replicate n '0') = 0 :=
  strVal_all_zero _ fun _ hc => List.eq_of_mem_replicate hc

/-! ## takeWhile and dropWhile over a concatenation that stops at a boundary -/

lemma takeWhile_all {p : Char → Bool} {A : List Char} (hA : ∀ c ∈ A, p c = true) :
    A.takeWhile p = A := by
  induction A with
  | nil => rfl
  | cons c t ih =>
    rw [List.takeWhile_cons, if_pos (hA c (List.mem_cons_self c t))]
    rw [ih fun d hd => hA d (List.mem_cons_of_mem c hd)]

lemma dropWhile_all {p : Char → Bool} {A : List Char} (hA : ∀ c ∈ A, p c = true) :
    A.dropWhile p = [] :=
  List.dropWhile_eq_nil_iff.mpr hA

lemma takeWhile_append_stop {p : Char → Bool} {A B : List Char}
    (hA : ∀ c ∈ A, p c = true) (hB : ∀ c, B.head? = some c → p c = false) :
    (A ++ B).takeWhile p = A := by
  rw [List.takeWhile_append]
  rw [takeWhile_all hA]
  rw [if_pos rfl]
  cases B with
  | nil => simp
  | cons b t =>
    rw [List.takeWhile_cons, if_neg (by simp [hB b rfl]), List.append_nil]

lemma dropWhile_append_stop {p : Char → Bool} {A B : List Char}
    (hA : ∀ c ∈ A, p c = true) (hB : ∀ c, B.head? = some c → p c = false) :
    (A ++ B).dropWhile p = B := by
  have h := List.takeWhile_append_dropWhile p (A ++ B)
  rw [takeWhile_append_stop hA hB] at h
  exact List.append_cancel_left h

/-! ## Facts about trimTrailingZeros -/

lemma trim_decomp (l : List Char) :
    l = trimTrailingZeros l ++
      List.replicate (l.length - (trimTrailingZeros l).length) '0' := by
  have hsplit : List.takeWhile (fun c => decide (c = '0')) l.reverse ++
      List.dropWhile (fun c => decide (c = '0')) l.reverse = l.reverse :=
    List.takeWhile_append_dropWhile _ _
  have h1 : (List.dropWhile (fun c => decide (c = '0')) l.reverse).reverse ++
      (List.takeWhile (fun c => decide (c = '0')) l.reverse).reverse = l := by
    rw [← List.reverse_append, hsplit, List.reverse_reverse]
  have htake : (List.takeWhile (fun c => decide (c = '0')) l.reverse).reverse =
      List.replicate (List.takeWhile (fun c => decide (c = '0')) l.reverse).length '0' := by
    rw [List.eq_replicate_iff]
    refine ⟨by simp, ?_⟩
    intro b hb
    rw [List.mem_reverse] at hb
    simpa using List.mem_takeWhile_imp hb
  have hlen : (trimTrailingZeros l).length +
      (List.takeWhile (fun c => decide (c = '0')) l.reverse).length = l.length := by
    have := congrArg List.length h1
    simpa [trimTrailingZeros] using this
  have hj : (List.takeWhile (fun c => decide (c = '0')) l.reverse).length =
      l.length - (trimTrailingZeros l).length := by omega
  conv_lhs => rw [← h1]
  rw [htake, hj]
  rfl

lemma trim_length_le (l : List Char) : (trimTrailingZeros l).length ≤ l.length := by
  conv_rhs => rw [trim_decomp l]
  simp

lemma strVal_trim (l : List Char) :
    strVal l = strVal (trimTrailingZeros l) *
      10 ^ (l.length - (trimTrailingZeros l).length) := by
  conv_lhs => rw [trim_decomp l]
  rw [strVal_append, strVal_replicate_zero, List.length_replicate]
  omega

lemma trim_eq_nil_strVal (l : List Char) (h : trimTrailingZeros l = []) : strVal l = 0 := by
  rw [strVal_trim l, h]
  simp [strVal]

lemma trim_subset (l : List Char) : ∀ c ∈ trimTrailingZeros l, c ∈ l := by
  intro c hc
  conv => rw [trim_decomp l]
  exact List.mem_append_left _ hc

lemma dropWhile_head_false {p : Char → Bool} {l : List Char} {c : Char}
    (h : (l.dropWhile p).head? = some c) : p c = false := by
  induction l with
  | nil => simp [List.dropWhile] at h
  | cons a t ih =>
    rw [List.dropWhile_cons] at h
    by_cases ha : p a
    · rw [if_pos ha] at h
      exact ih h
    · rw [if_neg ha] at h
      have : a = c := by simpa using h
      rw [this] at ha
      simpa using ha

lemma trim_getLast {l : List Char} {c : Char}
    (h : (trimTrailingZeros l).getLast? = some c) : c ≠ '0' := by
  have h2 : (l.reverse.dropWhile (fun c => decide (c = '0'))).head? = some c := by
    rw [List.getLast?_eq_head?_reverse] at h
    simpa [trimTrailingZeros] using h
  have := dropWhile_head_false h2
  simpa using this

lemma trim_of_getLast {l : List Char} (h : ∀ c, l.getLast? = some c → c ≠ '0') :
    trimTrailingZeros l = l := by
  unfold trimTrailingZeros
  cases hr : l.reverse with
  | nil =>
    have : l = [] := by simpa using congrArg List.reverse hr
    simp [this]
  | cons a t =>
    have ha : l.getLast? = some a := by
      rw [List.getLast?_eq_head?_reverse, hr]
      rfl
    rw [List.dropWhile_cons, if_neg (by simpa using h a ha)]
    rw [← hr, List.reverse_reverse]

lemma trim_idem (l : List Char) :
    trimTrailingZeros (trimTrailingZeros l) = trimTrailingZeros l := by
  cases hn : trimTrailingZeros l with
  | nil => rfl
  | cons a t =>
    rw [← hn]
    apply trim_of_getLast
    intro c hc
    exact trim_getLast hc

lemma trim_append {A B : List Char} (h : trimTrailingZeros B ≠ []) :
    trimTrailingZeros (A ++ B) = A ++ trimTrailingZeros B := by
  unfold trimTrailingZeros
  rw [List.reverse_append, List.dropWhile_append]
  have hne : B.reverse.dropWhile (fun c => decide (c = '0')) ≠ [] := by
    intro he
    apply h
    simp [trimTrailingZeros, he]
  rw [if_neg (by simpa using hne), List.reverse_append, List.reverse_reverse]

/-! ## Facts about splitOnChar -/

lemma splitOnCharAux_no_sep {sep : Char} {l : List Char} (h : sep ∉ l) (acc : List Char) :
    splitOnCharAux sep l acc = [acc.reverse ++ l] := by
  induction l generalizing acc with
  | nil => simp [splitOnCharAux]
  | cons c t ih =>
    have hc : c ≠ sep := fun he => h (he ▸ List.mem_cons_self c t)
    rw [splitOnCharAux, if_neg hc]
    rw [ih (fun ht => h (List.mem_cons_of_mem c ht))]
    simp

lemma splitOnChar_no_sep {sep : Char} {l : List Char} (h : sep ∉ l) :
    splitOnChar sep l = [l] := by
  unfold splitOnChar
  rw [splitOnCharAux_no_sep h]
  rfl

lemma splitOnCharAux_boundary {sep : Char} {A : List Char} (h : sep ∉ A) (B acc : List Char) :
    splitOnCharAux sep (A ++ sep :: B) acc = (acc.reverse ++ A) :: splitOnChar sep B := by
  induction A generalizing acc with
  | nil =>
    rw [List.nil_append, splitOnCharAux, if_pos rfl]
    simp [splitOnChar]
  | cons c t ih =>
    have hc : c ≠ sep := fun he => h (he ▸ List.mem_cons_self c t)
    rw [List.cons_append, splitOnCharAux, if_neg hc]
    rw [ih (fun ht => h (List.mem_cons_of_mem c ht))]
    simp

lemma splitOnChar_pair {sep : Char} {A B : List Char} (hA : sep ∉ A) (hB : sep ∉ B) :
    splitOnChar sep (A ++ sep :: B) = [A, B] := by
  unfold splitOnChar
  rw [splitOnCharAux_boundary hA]
  rw [splitOnChar_no_sep hB]
  rfl

/-! ## Facts about the SetString scans on digit strings -/

lemma head_mem {l : List Char} {c : Char} (h : l.head? = some c) : c ∈ l := by
  cases l with
  | nil => simp at h
  | cons a t =>
    have : a = c := by simpa using h
    rw [← this]
    exact List.mem_cons_self a t

lemma scanSign_no_sign {l : List Char} (h : ∀ c, l.head? = some c → c ≠ '+' ∧ c ≠ '-') :
    scanSign l = (false, l) := by
  cases l with
  | nil => rfl
  | cons c rest =>
    have hc := h c rfl
    simp [scanSign, hc.1, hc.2]

lemma scanSign_of_digits {l : List Char} (h : ∀ c ∈ l, goIsDigit c = true) :
    scanSign l = (false, l) := by
  apply scanSign_no_sign
  intro c hc
  have hd := h c (head_mem hc)
  exact ⟨goIsDigit_ne_of_lt hd (by decide), goIsDigit_ne_of_lt hd (by decide)⟩

lemma setString10_digits {l : List Char} (h0 : l ≠ []) (h : ∀ c ∈ l, goIsDigit c = true) :
    setString10 l = some (strVal l : ℤ) := by
  unfold setString10
  rw [scanSign_of_digits h]
  simp only [takeWhile_all h, dropWhile_all h]
  simp [h0]

lemma setString10Scan_stops {d rest : List Char} (hd0 : d ≠ [])
    (hd : ∀ c ∈ d, goIsDigit c = true)
    (hrest : ∀ c, rest.head? = some c → goIsDigit c = false) :
    setString10Scan (d ++ rest) = (strVal d : ℤ) := by
  have hsign : scanSign (d ++ rest) = (false, d ++ rest) := by
    apply scanSign_no_sign
    intro c hc
    cases d with
    | nil => exact absurd rfl hd0
    | cons a t =>
      have : a = c := by simpa using hc
      have hda := hd a (List.mem_cons_self a t)
      rw [← this]
      exact ⟨goIsDigit_ne_of_lt hda (by decide), goIsDigit_ne_of_lt hda (by decide)⟩
  unfold setString10Scan
  rw [hsign]
  simp only [takeWhile_append_stop hd hrest]
  simp

lemma sepValid_digits {l : List Char} (h : ∀ c ∈ l, goIsDigit c = true) (b : Bool) :
    sepValid b l = true := by
  induction l generalizing b with
  | nil => rfl
  | cons c t ih =>
    have hc : c ≠ '_' := goIsDigit_ne_of_lt (h c (List.mem_cons_self c t)) (by decide)
    rw [sepValid, if_neg hc]
    exact ih (fun d hd => h d (List.mem_cons_of_mem c hd)) true

lemma scanRun10_digits {l : List Char} (h : ∀ c ∈ l, goIsDigit c = true) :
    scanRun 10 goIsDigit digitVal false l = (strVal l, true) := by
  unfold scanRun runVal
  have htw : l.takeWhile (fun c => goIsDigit c || decide (c = '_')) = l :=
    takeWhile_all (fun c hc => by simp [h c hc])
  rw [htw]
  have hf : l.filter (fun c => decide (c ≠ '_')) = l := by
    rw [List.filter_eq_self]
    intro a ha
    simpa using goIsDigit_ne_of_lt (h a ha) (by decide)
  rw [hf]
  rw [sepValid_digits h]
  rfl

lemma setString0Scan_digits {l : List Char} (h : ∀ c ∈ l, goIsDigit c = true)
    (h0 : l.headD ' ' ≠ '0') : setString0Scan l = (strVal l : ℤ) := by
  unfold setString0Scan
  rw [scanSign_of_digits h]
  dsimp only
  have hnp : ¬ (l.headD ' ' = '0' ∧ l.tail ≠ []) := fun hc => h0 hc.1
  rw [if_neg hnp, scanRun10_digits h]
  simp

/-! ## Facts about natDigitsAux, natRepr and reduceTiers -/

lemma digitChar_spec {n : ℕ} (h : n < 10) :
    goIsDigit (digitChar n) = true ∧ digitVal (digitChar n) = n := by
  interval_cases n <;> exact ⟨by decide, by decide⟩

lemma natDigitsAux_spec : ∀ fuel n, n < fuel →
    (∀ c ∈ natDigitsAux fuel n, goIsDigit c = true) ∧
    strVal (natDigitsAux fuel n) = n ∧
    natDigitsAux fuel n ≠ [] ∧
    n < 10 ^ (natDigitsAux fuel n).length ∧
    ((natDigitsAux fuel n).length = 1 ∨ 10 ^ ((natDigitsAux fuel n).length - 1) ≤ n) := by
  intro fuel
  induction fuel with
  | zero => intro n h; omega
  | succ fuel ih =>
    intro n hn
    by_cases h10 : n < 10
    · rw [natDigitsAux, if_pos h10]
      obtain ⟨hd, hv⟩ := digitChar_spec h10
      refine ⟨?_, ?_, by simp, ?_, Or.inl rfl⟩
      · intro c hc
        rw [List.mem_singleton] at hc
        rw [hc]
        exact hd
      · rw [strVal_cons]
        simp [strVal, hv]
      · simpa using h10
    · rw [natDigitsAux, if_neg h10]
      have hpos : 0 < n := by omega
      have hrec : n / 10 < fuel := by
        have h1 : n / 10 < n := Nat.div_lt_self hpos (by omega)
        omega
      obtain ⟨ihd, ihv, ihne, ihlt, ihlen⟩ := ih (n / 10) hrec
      have hmod : n % 10 < 10 := Nat.mod_lt n (by omega)
      obtain ⟨hd2, hv2⟩ := digitChar_spec hmod
      have hlen : (natDigitsAux fuel (n / 10) ++ [digitChar (n % 10)]).length =
          (natDigitsAux fuel (n / 10)).length + 1 := by simp
      have hlenpos : 1 ≤ (natDigitsAux fuel (n / 10)).length :=
        List.length_pos_of_ne_nil ihne
      refine ⟨?_, ?_, by simp, ?_, ?_⟩
      · intro c hc
        rcases List.mem_append.mp hc with h1 | h1
        · exact ihd c h1
        · rw [List.mem_singleton] at h1
          rw [h1]
          exact hd2
      · rw [strVal_append, ihv]
        rw [strVal_cons]
        simp only [List.length_singleton, List.length_nil, strVal_nil, pow_zero, pow_one]
        rw [hv2]
        simp [strVal]
        omega
      · rw [hlen, pow_succ]
        have := Nat.div_add_mod n 10
        have h2 : n / 10 + 1 ≤ 10 ^ (natDigitsAux fuel (n / 10)).length := ihlt
        nlinarith
      · right
        rw [hlen]
        simp only [Nat.add_sub_cancel]
        rcases ihlen with h1 | h1
        · rw [h1]
          simpa using h10
        · have h2 : 10 ^ ((natDigitsAux fuel (n / 10)).length - 1) * 10 ≤ n / 10 * 10 :=
            Nat.mul_le_mul_right 10 h1
          have h3 : 10 ^ ((natDigitsAux fuel (n / 10)).length - 1) * 10 =
              10 ^ (natDigitsAux fuel (n / 10)).length := by
            rw [← pow_succ]
            congr 1
            omega
          have h4 : n / 10 * 10 ≤ n := by
            have := Nat.div_add_mod n 10
            omega
          omega

lemma natRepr_digits (n : ℕ) : ∀ c ∈ natRepr n, goIsDigit c = true :=
  (natDigitsAux_spec (n + 1) n (by omega)).1

lemma natRepr_strVal (n : ℕ) : strVal (natRepr n) = n :=
  (natDigitsAux_spec (n + 1) n (by omega)).2.1

lemma natRepr_ne_nil (n : ℕ) : natRepr n ≠ [] :=
  (natDigitsAux_spec (n + 1) n (by omega)).2.2.1

lemma natRepr_lt (n : ℕ) : n < 10 ^ (natRepr n).length :=
  (natDigitsAux_spec (n + 1) n (by omega)).2.2.2.1

lemma natRepr_len_lower (n : ℕ) :
    (natRepr n).length = 1 ∨ 10 ^ ((natRepr n).length - 1) ≤ n :=
  (natDigitsAux_spec (n + 1) n (by omega)).2.2.2.2

lemma natRepr_no_dot (n : ℕ) : '.' ∉ natRepr n := by
  intro h
  exact goIsDigit_ne_of_lt (natRepr_digits n '.' h) (by decide) rfl

lemma natRepr_no_space (n : ℕ) : ' ' ∉ natRepr n := by
  intro h
  exact goIsDigit_ne_of_lt (natRepr_digits n ' ' h) (by decide) rfl

lemma reduceTiersAux_spec : ∀ fuel v, v ≤ fuel →
    v = (reduceTiersAux fuel v).1 * 1000 ^ (reduceTiersAux fuel v).2 ∧
    ((reduceTiersAux fuel v).1 < 1000 ∨ (reduceTiersAux fuel v).1 % 1000 ≠ 0) := by
  intro fuel
  induction fuel with
  | zero =>
    intro v hv
    have : v = 0 := by omega
    rw [this]
    exact ⟨by simp [reduceTiersAux], Or.inl (by simp [reduceTiersAux])⟩
  | succ fuel ih =>
    intro v hv
    by_cases hc : 1000 ≤ v ∧ v % 1000 = 0
    · rw [reduceTiersAux, if_pos hc]
      have hlt : v / 1000 < v := Nat.div_lt_self (by omega) (by omega)
      obtain ⟨ih1, ih2⟩ := ih (v / 1000) (by omega)
      constructor
      · show v = (reduceTiersAux fuel (v / 1000)).1 *
            1000 ^ ((reduceTiersAux fuel (v / 1000)).2 + 1)
        rw [pow_succ, ← mul_assoc, ← ih1]
        have := Nat.div_add_mod v 1000
        omega
      · exact ih2
    · rw [reduceTiersAux, if_neg hc]
      push_neg at hc
      refine ⟨by simp, ?_⟩
      by_cases h1 : v < 1000
      · exact Or.inl h1
      · exact Or.inr (hc (by omega))

lemma reduceTiers_spec (v : ℕ) :
    v = (reduceTiers v).1 * 1000 ^ (reduceTiers v).2 ∧
    ((reduceTiers v).1 < 1000 ∨ (reduceTiers v).1 % 1000 ≠ 0) :=
  reduceTiersAux_spec v v (le_refl v)

lemma reduceTiers_tier_ge {n k : ℕ} (hn : n ≠ 0) (hd : 1000 ^ k ∣ n) :
    k ≤ (reduceTiers n).2 := by
  obtain ⟨hval, hred⟩ := reduceTiers_spec n
  by_contra hlt
  push_neg at hlt
  set v := (reduceTiers n).1 with hv
  set p := (reduceTiers n).2 with hp
  have hvne : v ≠ 0 := by
    intro h0
    rw [h0] at hval
    simp at hval
    exact hn hval
  have hsplit : 1000 ^ k = 1000 ^ p * 1000 ^ (k - p) := by
    rw [← pow_add]
    congr 1
    omega
  rw [hval, hsplit] at hd
  rw [mul_comm v (1000 ^ p)] at hd
  have hdv : 1000 ^ (k - p) ∣ v :=
    (mul_dvd_mul_iff_left (pow_ne_zero p (by norm_num : (1000 : ℕ) ≠ 0))).mp hd
  have hkp : 1 ≤ k - p := by omega
  have h1000 : (1000 : ℕ) ∣ 1000 ^ (k - p) := dvd_pow_self 1000 (by omega)
  have hdvd1000 : (1000 : ℕ) ∣ v := h1000.trans hdv
  have hle : 1000 ^ (k - p) ≤ v := Nat.le_of_dvd (by omega) hdv
  have h1 : (1000 : ℕ) ≤ 1000 ^ (k - p) := by
    calc (1000 : ℕ) = 1000 ^ 1 := (pow_one 1000).symm
    _ ≤ 1000 ^ (k - p) := Nat.pow_le_pow_right (by omega) hkp
  rcases hred with h2 | h2
  · omega
  · obtain ⟨w, hw⟩ := hdvd1000
    apply h2
    omega

/-! ## Facts about UnitToMultiplier, metricUnits and the multiplier division loop -/

lemma Char_toNat_ofNat_valid (n : ℕ) (h : n.isValidChar) : (Char.ofNat n).toNat = n := by
  unfold Char.ofNat
  rw [dif_pos h]
  unfold Char.ofNatAux Char.toNat
  simp [UInt32.toNat, BitVec.toNat_ofNatLt]

lemma charToLower_toNat_upper {c : Char} (h : 65 ≤ c.toNat ∧ c.toNat ≤ 90) :
    (charToLower c).toNat = c.toNat + 32 := by
  unfold charToLower
  rw [if_pos h]
  exact Char_toNat_ofNat_valid _ (Or.inl (by omega))

lemma charToLower_ne_of_small {c d : Char} (hd : d.toNat < 97 ∨ 122 < d.toNat)
    (hcd : c ≠ d) : charToLower c ≠ d := by
  by_cases h : 65 ≤ c.toNat ∧ c.toNat ≤ 90
  · intro he
    have h2 := congrArg Char.toNat he
    rw [charToLower_toNat_upper h] at h2
    omega
  · unfold charToLower
    rw [if_neg h]
    exact hcd

lemma no_bad_char_of_toLower {u a : String} (ha : goToLower u = a)
    (hsp : ' ' ∉ a.data) (hdot : '.' ∉ a.data) : ' ' ∉ u.data ∧ '.' ∉ u.data := by
  have hlowsp : charToLower ' ' = ' ' := by decide
  have hlowdot : charToLower '.' = '.' := by decide
  constructor
  · intro hm
    apply hsp
    have hmem : charToLower ' ' ∈ (goToLower u).data :=
      List.mem_map_of_mem charToLower hm
    rw [ha, hlowsp] at hmem
    exact hmem
  · intro hm
    apply hdot
    have hmem : charToLower '.' ∈ (goToLower u).data :=
      List.mem_map_of_mem charToLower hm
    rw [ha, hlowdot] at hmem
    exact hmem

set_option maxHeartbeats 1600000 in
/-- Structural inverse of a successful unit lookup: the multiplier is a
power of ten not exceeding 10^30, and the unit token can contain neither
a space nor a period (it case-folds to one of the all-letter aliases). -/
lemma UnitToMultiplier_inv {u : String} {m : ℕ} (h : UnitToMultiplier u = some m) :
    (∃ k, k ≤ 30 ∧ m = 10 ^ k) ∧ ' ' ∉ u.data ∧ '.' ∉ u.data := by
  unfold UnitToMultiplier at h
  dsimp only at h
  split_ifs at h with h1 h2 h3 h4 h5 h6 h7 h8 h9 h10 h11
  · injection h with hm; subst hm
    rcases h1 with he | he <;>
      exact ⟨⟨0, by norm_num, by norm_num⟩, no_bad_char_of_toLower he (by decide) (by decide)⟩
  · injection h with hm; subst hm
    rcases h2 with he | he | he <;>
      exact ⟨⟨3, by norm_num, by norm_num⟩, no_bad_char_of_toLower he (by decide) (by decide)⟩
  · injection h with hm; subst hm
    rcases h3 with he | he | he <;>
      exact ⟨⟨6, by norm_num, by norm_num⟩, no_bad_char_of_toLower he (by decide) (by decide)⟩
  · injection h with hm; subst hm
    rcases h4 with he | he | he <;>
      exact ⟨⟨9, by norm_num, by norm_num⟩, no_bad_char_of_toLower he (by decide) (by decide)⟩
  · injection h with hm; subst hm
    rcases h5 with he | he | he <;>
      exact ⟨⟨12, by norm_num, by norm_num⟩, no_bad_char_of_toLower he (by decide) (by decide)⟩
  · injection h with hm; subst hm
    rcases h6 with he | he | he <;>
      exact ⟨⟨15, by norm_num, by norm_num⟩, no_bad_char_of_toLower he (by decide) (by decide)⟩
  · injection h with hm; subst hm
    exact ⟨⟨18, by norm_num, by norm_num⟩, no_bad_char_of_toLower h7 (by decide) (by decide)⟩
  · injection h with hm; subst hm
    rcases h8 with he | he | he <;>
      exact ⟨⟨21, by norm_num, by norm_num⟩, no_bad_char_of_toLower he (by decide) (by decide)⟩
  · injection h with hm; subst hm
    rcases h9 with he | he <;>
      exact ⟨⟨24, by norm_num, by norm_num⟩, no_bad_char_of_toLower he (by decide) (by decide)⟩
  · injection h with hm; subst hm
    rcases h10 with he | he <;>
      exact ⟨⟨27, by norm_num, by norm_num⟩, no_bad_char_of_toLower he (by decide) (by decide)⟩
  · injection h with hm; subst hm
    rcases h11 with he | he <;>
      exact ⟨⟨30, by norm_num, by norm_num⟩, no_bad_char_of_toLower he (by decide) (by decide)⟩

lemma UnitToMultiplier_pow {u : String} {m : ℕ} (h : UnitToMultiplier u = some m) :
    ∃ k, k ≤ 30 ∧ m = 10 ^ k :=
  (UnitToMultiplier_inv h).1

lemma UnitToMultiplier_no_space {u : String} {m : ℕ} (h : UnitToMultiplier u = some m) :
    ' ' ∉ u.data :=
  (UnitToMultiplier_inv h).2.1

lemma UnitToMultiplier_no_dot {u : String} {m : ℕ} (h : UnitToMultiplier u = some m) :
    '.' ∉ u.data :=
  (UnitToMultiplier_inv h).2.2

lemma iterateDiv10_zero (L : ℕ) : iterateDiv10 0 L = 0 := by
  induction L with
  | zero => rfl
  | succ L ih =>
    show iterateDiv10 (0 / 10) L = 0
    simpa using ih

lemma iterateDiv10_pow (k L : ℕ) :
    iterateDiv10 (10 ^ k) L = if L ≤ k then 10 ^ (k - L) else 0 := by
  induction L generalizing k with
  | zero => simp [iterateDiv10]
  | succ L ih =>
    show iterateDiv10 (10 ^ k / 10) L = _
    cases k with
    | zero =>
      norm_num
      exact iterateDiv10_zero L
    | succ k =>
      have hdiv : 10 ^ (k + 1) / 10 = 10 ^ k := by
        rw [pow_succ]
        exact Nat.mul_div_cancel _ (by norm_num)
      rw [hdiv, ih k]
      by_cases hL : L ≤ k
      · rw [if_pos hL, if_pos (by omega)]
        congr 1
        omega
      · rw [if_neg hL, if_neg (by omega)]

/-! ## Dispatch lemmas for StringToWei -/

lemma contains_of_mem {l : List Char} {c : Char} (h : c ∈ l) : l.contains c = true :=
  List.elem_iff.mpr h

lemma contains_eq_false {l : List Char} {c : Char} (h : c ∉ l) : l.contains c = false := by
  cases hb : l.contains c
  · rfl
  · exact absurd (List.elem_iff.mp hb) h

lemma stringToWeiL_two_tokens {num u : List Char} (hnum : ' ' ∉ num) (hu : ' ' ∉ u) :
    stringToWeiL (num ++ ' ' :: u) =
      match (if num.contains '.' then decimalStringToWei num u
             else integerStringToWei num u) with
      | GoResult.ok result =>
        if result < 0 then GoResult.err "Value resulted in negative number of Wei"
        else GoResult.ok result
      | GoResult.err m => GoResult.err m
      | GoResult.panic => GoResult.panic := by
  have hne : num ++ ' ' :: u ≠ [] := by simp
  have hcontains : (num ++ ' ' :: u).contains ' ' = true :=
    contains_of_mem (List.mem_append_right num (List.mem_cons_self ' ' u))
  have hsplit : splitOnChar ' ' (num ++ ' ' :: u) = [num, u] := splitOnChar_pair hnum hu
  unfold stringToWeiL
  rw [if_neg hne]
  dsimp only
  rw [hcontains, hsplit]
  norm_num

lemma integerStringToWei_digits {d u : List Char} {m : ℕ} (hd0 : d ≠ [])
    (hd : ∀ c ∈ d, goIsDigit c = true) (hm : UnitToMultiplier u.asString = some m) :
    integerStringToWei d u = GoResult.ok ((strVal d : ℤ) * (m : ℤ)) := by
  unfold integerStringToWei
  rw [setString10_digits hd0 hd, hm]

lemma digits_no_dot {l : List Char} (h : ∀ c ∈ l, goIsDigit c = true) : '.' ∉ l := by
  intro hm
  exact goIsDigit_ne_of_lt (h '.' hm) (by decide) rfl

lemma digits_no_space {l : List Char} (h : ∀ c ∈ l, goIsDigit c = true) : ' ' ∉ l := by
  intro hm
  exact goIsDigit_ne_of_lt (h ' ' hm) (by decide) rfl

lemma decimalStringToWei_digits {I F u : List Char} {m k : ℕ}
    (hI0 : I ≠ []) (hI : ∀ c ∈ I, goIsDigit c = true) (hF : ∀ c ∈ F, goIsDigit c = true)
    (hF0 : (trimTrailingZeros F).headD ' ' ≠ '0')
    (hm : UnitToMultiplier u.asString = some m) (hk : m = 10 ^ k) :
    decimalStringToWei (I ++ '.' :: F) u =
      (if trimTrailingZeros F = [] then GoResult.ok ((strVal I : ℤ) * (m : ℤ))
       else if (trimTrailingZeros F).length ≤ k then
         GoResult.ok ((strVal I : ℤ) * (m : ℤ) +
           ((10 ^ (k - (trimTrailingZeros F).length) : ℕ) : ℤ) *
             (strVal (trimTrailingZeros F) : ℤ))
       else GoResult.err "Value resulted in fractional number of Wei") := by
  have hsplit : splitOnChar '.' (I ++ '.' :: F) = [I, F] :=
    splitOnChar_pair (digits_no_dot hI) (digits_no_dot hF)
  unfold decimalStringToWei
  rw [hsplit]
  simp only [List.getD, List.get?_cons_zero, List.get?_cons_succ, Option.getD_some]
  rw [if_pos hI0, integerStringToWei_digits hI0 hI hm]
  dsimp only
  by_cases htrim : trimTrailingZeros F = []
  · rw [htrim]
    simp
  · rw [if_neg htrim, if_neg htrim, hm]
    have hTdig : ∀ c ∈ trimTrailingZeros F, goIsDigit c = true :=
      fun c hc => hF c (trim_subset F c hc)
    rw [setString0Scan_digits hTdig hF0]
    rw [hk]
    dsimp only
    rw [iterateDiv10_pow]
    by_cases hL : (trimTrailingZeros F).length ≤ k
    · rw [if_pos hL, if_pos hL, if_neg (by positivity)]
    · rw [if_neg hL, if_neg hL, if_pos rfl]

/-! ## Claim C10 -/

/-- C10: formatting the zero Amount with standard=false succeeds and
returns exactly "0 Wei": a single digit 0, no decimal point, no tier
reduction, with the base-unit label. -/
theorem c10_format_zero : WeiToString 0 false = GoResult.ok "0 Wei" := by decide

/-! ## Claim C3 -/

/-- C3 (code bug evidence): an unrecognised unit behind a decimal number
with an empty integer part does not produce the unknown-unit error: the
lookup error is discarded (the code comments that the lookup cannot fail,
which is wrong on this path) and the nil multiplier is dereferenced, a
runtime panic — while with the trimmed fraction empty the input parses
successfully to 0, the unknown unit notwithstanding. The integer path
does return the unknown-unit error. -/
theorem c3_unknown_unit_behavior :
    StringToWei ".5 bogus" = GoResult.panic ∧
    StringToWei ".0 bogus" = GoResult.ok 0 ∧
    StringToWei "5 bogus" = GoResult.err "Failed to parse unit of 5 bogus" := by decide

/-! ## Claim C8 -/

/-- C8 counterexample: the bare input "abc" has no valid numeric part,
yet parse does not fail: the ignored `SetString` failure leaves 0 in the
result and `StringToWei` returns it as a success. -/
theorem c8_malformed_counterexample : StringToWei "abc" = GoResult.ok 0 := by decide

/-- C8 amended: for spaced two-token inputs whose numeric token contains
no decimal point, parse fails with a ParseError exactly as claimed when
the numeric token is not a valid optionally-signed integer literal;
only this spaced integer-branch keeps the claimed guarantee (bare inputs
fall through with the parse failure ignored, a leading sign is accepted,
and extra decimal segments are ignored). -/
theorem c8_malformed_amended {num u : List Char}
    (hnum : ' ' ∉ num) (hu : ' ' ∉ u) (hdot : '.' ∉ num) (hfail : setString10 num = none) :
    StringToWei (num ++ ' ' :: u).asString =
      GoResult.err ("Failed to parse numeric value of " ++ num.asString ++ " " ++ u.asString) := by
  unfold StringToWei
  have hdata : ((num ++ ' ' :: u).asString).data = num ++ ' ' :: u := rfl
  rw [hdata, stringToWeiL_two_tokens hnum hu]
  rw [contains_eq_false hdot, if_neg (by simp)]
  unfold integerStringToWei
  rw [hfail]

/-- C8 witness: "abc ether" hits the amended guarantee. -/
theorem c8_malformed_witness :
    StringToWei ((['a', 'b', 'c'] ++ ' ' :: ['e', 't', 'h', 'e', 'r']).asString) =
      GoResult.err ("Failed to parse numeric value of " ++
        (['a', 'b', 'c'] : List Char).asString ++ " " ++
        (['e', 't', 'h', 'e', 'r'] : List Char).asString) :=
  c8_malformed_amended (by decide) (by decide) (by decide) (by decide)

/-! ## Claim C9 -/

/-- C9 counterexample: the bare space-less decimal "1.5" does not return
an error: `SetString` stops at the decimal point, its failure flag is
ignored, and parse silently returns the integer part 1. -/
theorem c9_bare_decimal_counterexample : StringToWei "1.5" = GoResult.ok 1 := by decide

/-- C9 amended: a bare decimal string (digits, a period, then any
space-free remainder) neither crashes nor errors: parse silently returns
the value of the digits before the period. -/
theorem c9_bare_decimal_amended {d rest : List Char} (hd0 : d ≠ [])
    (hd : ∀ c ∈ d, goIsDigit c = true) (hrest : ' ' ∉ rest) :
    StringToWei ((d ++ '.' :: rest).asString) = GoResult.ok (strVal d : ℤ) := by
  unfold StringToWei
  have hdata : ((d ++ '.' :: rest).asString).data = d ++ '.' :: rest := rfl
  rw [hdata]
  have hne : d ++ '.' :: rest ≠ [] := by simp
  have hnosp : ' ' ∉ d ++ '.' :: rest := by
    intro hm
    rcases List.mem_append.mp hm with h1 | h1
    · exact digits_no_space hd h1
    · rcases List.mem_cons.mp h1 with h2 | h2
      · exact absurd h2 (by decide)
      · exact hrest h2
  unfold stringToWeiL
  rw [if_neg hne]
  rw [contains_eq_false hnosp, if_neg (by simp)]
  rw [setString10Scan_stops hd0 hd ?hstop]
  case hstop =>
    intro c hc
    have : c = '.' := by simpa using hc.symm
    rw [this]
    decide
  dsimp only
  rw [if_neg (not_lt.mpr (Int.natCast_nonneg _))]

/-- C9 witness: "1.5" itself, through the amended statement. -/
theorem c9_bare_decimal_witness :
    StringToWei ((['1'] ++ '.' :: ['5']).asString) = GoResult.ok (strVal ['1'] : ℤ) :=
  c9_bare_decimal_amended (by decide) (by decide) (by decide)

/-! ## Claim C2 -/

/-- C2 counterexample: the trimmed fraction "017" of "1.017 ether" is
not read as a decimal integer: `decVal.SetString(trimmedDecimal, 0)`
uses base 0 and a bare leading `0` is Go's legacy octal prefix, so the
fraction contributes octal 017 = 15, giving 1015000000000000000 instead
of the 1017000000000000000 the claim requires. -/
theorem c2_octal_fraction_counterexample :
    StringToWei "1.017 ether" = GoResult.ok 1015000000000000000 ∧
    (1015000000000000000 : ℤ) ≠ 1017000000000000000 := by decide

/-- C2 amended: for inputs of the form `<int>.<frac> <unit>` with a
recognised unit of multiplier m and a nonempty all-digit integer part,
provided the trimmed fraction does not start with the digit 0 (a
leading 0 triggers base-0 octal reading instead of decimal): when the
fraction trims (trailing zeros removed) to empty, the result is
integerPart * m; when 10^L divides m (L the trimmed length), the result
is integerPart * m + F * (m / 10^L) with F the trimmed fraction read as
a decimal integer; otherwise parse fails with the fractional-Wei error.
The concrete examples of the claim all hold: parse("1.5 ether") =
1500000000000000000, parse("0.000000000000000001 ether") = 1 (its octal
and decimal readings agree), and parse("0.1 wei") fails; but a
leading-zero fraction such as "0.09 ether" is read as octal 0 and the
fractional part is silently dropped. -/
theorem c2_decimal_fraction_semantics :
    (∀ (I F : List Char) (u : String) (m : ℕ),
      I ≠ [] → (∀ c ∈ I, goIsDigit c = true) → (∀ c ∈ F, goIsDigit c = true) →
      (trimTrailingZeros F).headD ' ' ≠ '0' →
      UnitToMultiplier u = some m →
      StringToWei ((I ++ '.' :: F).asString ++ " " ++ u) =
        (if trimTrailingZeros F = [] then GoResult.ok ((strVal I * m : ℕ) : ℤ)
         else if 10 ^ (trimTrailingZeros F).length ∣ m then
           GoResult.ok ((strVal I * m +
             strVal (trimTrailingZeros F) * (m / 10 ^ (trimTrailingZeros F).length) : ℕ) : ℤ)
         else GoResult.err "Value resulted in fractional number of Wei")) ∧
    StringToWei "1.5 ether" = GoResult.ok 1500000000000000000 ∧
    StringToWei "0.000000000000000001 ether" = GoResult.ok 1 ∧
    StringToWei "0.1 wei" = GoResult.err "Value resulted in fractional number of Wei" ∧
    StringToWei "0.09 ether" = GoResult.ok 0 := by
  refine ⟨?_, by decide, by decide, by decide, by decide⟩
  intro I F u m hI0 hI hF hF0 hm
  obtain ⟨k, hk30, hk⟩ := UnitToMultiplier_pow hm
  have hdata : (((I ++ '.' :: F).asString ++ " " ++ u)).data =
      (I ++ '.' :: F) ++ ' ' :: u.data := by
    rw [String.data_append, String.data_append, List.append_assoc]
    rfl
  have hnum_nospace : ' ' ∉ I ++ '.' :: F := by
    intro hmem
    rcases List.mem_append.mp hmem with h1 | h1
    · exact digits_no_space hI h1
    · rcases List.mem_cons.mp h1 with h2 | h2
      · exact absurd h2 (by decide)
      · exact digits_no_space hF h2
  unfold StringToWei
  rw [hdata, stringToWeiL_two_tokens hnum_nospace (UnitToMultiplier_no_space hm)]
  rw [contains_of_mem (List.mem_append_right I (List.mem_cons_self '.' F)), if_pos rfl]
  have hmu : UnitToMultiplier (u.data).asString = some m := hm
  rw [decimalStringToWei_digits hI0 hI hF hF0 hmu hk]
  by_cases htrim : trimTrailingZeros F = []
  · rw [if_pos htrim, if_pos htrim]
    dsimp only
    rw [if_neg (not_lt.mpr (by positivity))]
    push_cast
    ring_nf
  · have hdvd : (10 ^ (trimTrailingZeros F).length ∣ m) ↔ (trimTrailingZeros F).length ≤ k := by
      rw [hk]
      exact Nat.pow_dvd_pow_iff_le_right (by norm_num)
    by_cases hL : (trimTrailingZeros F).length ≤ k
    · rw [if_neg htrim, if_pos hL, if_neg htrim, if_pos (hdvd.mpr hL)]
      dsimp only
      rw [if_neg (not_lt.mpr (by positivity))]
      have hdivval : m / 10 ^ (trimTrailingZeros F).length = 10 ^ (k - (trimTrailingZeros F).length) := by
        rw [hk]
        exact Nat.pow_div hL (by norm_num)
      rw [hdivval]
      push_cast
      ring_nf
    · rw [if_neg htrim, if_neg hL, if_neg htrim, if_neg (fun hd => hL (hdvd.mp hd))]

/-- C2 witness: the general clause instantiated at "1.5 ether". -/
theorem c2_decimal_fraction_semantics_witness :
    StringToWei ((['1'] ++ '.' :: ['5']).asString ++ " " ++ "ether") =
      (if trimTrailingZeros ['5'] = [] then GoResult.ok ((strVal ['1'] * 10 ^ 18 : ℕ) : ℤ)
       else if 10 ^ (trimTrailingZeros ['5']).length ∣ 10 ^ 18 then
         GoResult.ok ((strVal ['1'] * 10 ^ 18 +
           strVal (trimTrailingZeros ['5']) *
             (10 ^ 18 / 10 ^ (trimTrailingZeros ['5']).length) : ℕ) : ℤ)
       else GoResult.err "Value resulted in fractional number of Wei") :=
  c2_decimal_fraction_semantics.1 ['1'] ['5'] "ether" (10 ^ 18)
    (by decide) (by decide) (by decide) (by decide) (by decide)

/-! ## Claim C7 -/

/-- C7: the unit table maps the empty string and "wei" to 1, steps by
10^3 through the sub-ether tiers, reaches ether at 10^18 and teraether
at 10^30; every recognised multiplier is a power of ten; the lookup
factors through case folding, so aliases are case-insensitive and
parse("1 ETHER") = parse("1 ether"). -/
theorem c7_unit_table :
    UnitToMultiplier "" = some 1 ∧
    UnitToMultiplier "wei" = some 1 ∧
    UnitToMultiplier "kwei" = some (10 ^ 3) ∧
    UnitToMultiplier "mwei" = some (10 ^ 6) ∧
    UnitToMultiplier "gwei" = some (10 ^ 9) ∧
    UnitToMultiplier "microether" = some (10 ^ 12) ∧
    UnitToMultiplier "milliether" = some (10 ^ 15) ∧
    UnitToMultiplier "ether" = some (10 ^ 18) ∧
    UnitToMultiplier "kiloether" = some (10 ^ 21) ∧
    UnitToMultiplier "megaether" = some (10 ^ 24) ∧
    UnitToMultiplier "gigaether" = some (10 ^ 27) ∧
    UnitToMultiplier "teraether" = some (10 ^ 30) ∧
    (∀ (u : String) (m : ℕ), UnitToMultiplier u = some m → ∃ k, k ≤ 30 ∧ m = 10 ^ k) ∧
    (∀ s t : String, goToLower s = goToLower t → UnitToMultiplier s = UnitToMultiplier t) ∧
    StringToWei "1 ETHER" = StringToWei "1 ether" := by
  refine ⟨by decide, by decide, by decide, by decide, by decide, by decide, by decide,
    by decide, by decide, by decide, by decide, by decide, ?_, ?_, by decide⟩
  · exact fun u m h => UnitToMultiplier_pow h
  · intro s t h
    unfold UnitToMultiplier
    rw [h]

/-- C7 witness: case-insensitivity applied to "ETHER" and "ether". -/
theorem c7_unit_table_witness :
    UnitToMultiplier "ETHER" = UnitToMultiplier "ether" :=
  c7_unit_table.2.2.2.2.2.2.2.2.2.2.2.2.2.1 "ETHER" "ether" (by decide)

/-! ## Claim C5 -/

lemma reduceTiersAux_stop {fuel v : ℕ} (h : ¬(1000 ≤ v ∧ v % 1000 = 0)) :
    reduceTiersAux fuel v = (v, 0) := by
  cases fuel with
  | zero => rfl
  | succ fuel => rw [reduceTiersAux, if_neg h]

/-- C5 counterexample: `WeiToString` overwrites the caller's big.Int:
after formatting the amount 1000 the caller's value holds the reduced
value 1, not the original 1000. -/
theorem c5_mutation_counterexample :
    weiToStringInputAfter 1000 false = 1 ∧ (1 : ℕ) ≠ 1000 := by decide

/-- C5 amended: the caller's big.Int argument is left unchanged by
`WeiToString` exactly when no exact-thousand tier reduction applies
(the amount is below 1000 or not divisible by 1000); otherwise the
tier-reduction loop stores the reduced value back into it. -/
theorem c5_input_preserved_iff (n : ℕ) (standard : Bool) :
    weiToStringInputAfter n standard = n ↔ (n < 1000 ∨ n % 1000 ≠ 0) := by
  constructor
  · intro he
    obtain ⟨hval, hred⟩ := reduceTiers_spec n
    unfold weiToStringInputAfter at he
    rw [he] at hred
    exact hred
  · intro h
    unfold weiToStringInputAfter reduceTiers
    rw [reduceTiersAux_stop (by omega)]

/-! ## Claim C4 -/

/-- C4 counterexample: formatting 10^33 with standard=false reaches tier
index 11 on the 11-entry label table: the Go code performs the
out-of-range index (a runtime panic), it does not return an error. -/
theorem c4_overflow_counterexample : WeiToString (10 ^ 33) false = GoResult.panic := by decide

/-- C4 amended: for every nonzero amount divisible by 10^33 the final
tier exceeds the label table and `WeiToString` ends in the out-of-range
access (modelled as a panic), never in an error return or a string. -/
theorem c4_overflow_amended (n : ℕ) (h0 : n ≠ 0) (hd : 10 ^ 33 ∣ n) :
    WeiToString n false = GoResult.panic := by
  have hp : 11 ≤ (reduceTiers n).2 := by
    apply reduceTiers_tier_ge h0
    have h33 : (1000 : ℕ) ^ 11 = 10 ^ 33 := by norm_num
    rw [h33]
    exact hd
  have hd11 : 11 ≤ weiDesiredTier n false := by
    unfold weiDesiredTier
    dsimp only
    simp only [Bool.false_eq_true, and_false, if_false]
    split_ifs with h1 h2 <;> omega
  unfold WeiToString
  have hnone : metricUnits.get? (weiDesiredTier n false) = none := by
    rw [List.get?_eq_none]
    simpa using hd11
  rw [hnone]

/-- C4 witness: the amended statement at the amount 2 * 10^33. -/
theorem c4_overflow_witness : WeiToString (2 * 10 ^ 33) false = GoResult.panic :=
  c4_overflow_amended (2 * 10 ^ 33) (by decide) ⟨2, mul_comm 2 (10 ^ 33)⟩

/-! ## Claim C6 -/

/-- C6: in standard mode formatting always succeeds with the label drawn
from the table at the final tier, and that tier is 0, 1, 2, 3 or 6 —
the label is never "Microether" or "Milliether"; sub-ether magnitudes
use only the Wei/KWei/MWei/GWei labels and everything clamped lands on
"Ether". For example format(10^15, true) = "0.001 Ether". -/
theorem c6_standard_mode_units :
    (∀ n : ℕ,
      (weiDesiredTier n true = 0 ∨ weiDesiredTier n true = 1 ∨ weiDesiredTier n true = 2 ∨
       weiDesiredTier n true = 3 ∨ weiDesiredTier n true = 6) ∧
      WeiToString n true =
        GoResult.ok ((weiNumberPart n true).asString ++ " " ++
          metricUnits.getD (weiDesiredTier n true) "") ∧
      metricUnits.getD (weiDesiredTier n true) "" ≠ "Microether" ∧
      metricUnits.getD (weiDesiredTier n true) "" ≠ "Milliether") ∧
    WeiToString 1000000000000000 true = GoResult.ok "0.001 Ether" := by
  refine ⟨?_, by decide⟩
  intro n
  have htier : weiDesiredTier n true = 0 ∨ weiDesiredTier n true = 1 ∨
      weiDesiredTier n true = 2 ∨ weiDesiredTier n true = 3 ∨ weiDesiredTier n true = 6 := by
    unfold weiDesiredTier
    dsimp only
    simp only [and_true]
    split_ifs with h1 h2 h3 h4 <;> omega
  have hget : metricUnits.get? (weiDesiredTier n true) =
      some (metricUnits.getD (weiDesiredTier n true) "") := by
    rcases htier with h | h | h | h | h <;> rw [h] <;> rfl
  refine ⟨htier, ?_, ?_, ?_⟩
  · unfold WeiToString
    rw [hget]
  · rcases htier with h | h | h | h | h <;> rw [h] <;> decide
  · rcases htier with h | h | h | h | h <;> rw [h] <;> decide

/-! ## Claim C1: lemmas about the formatted output -/

lemma metric_multiplier {i : ℕ} {u : String} (h : metricUnits.get? i = some u) :
    UnitToMultiplier u = some (1000 ^ i) := by
  have hi : i < 11 := by
    by_contra hni
    rw [List.get?_eq_none.mpr (by simpa using hni)] at h
    cases h
  interval_cases i <;> (injection h with h2; rw [← h2]; decide)

lemma metric_no_space {u : String} (h : u ∈ metricUnits) : ' ' ∉ u.data := by
  have hall : ∀ x ∈ metricUnits, ' ' ∉ x.data := by decide
  exact hall u h

lemma metric_no_dot {u : String} (h : u ∈ metricUnits) : '.' ∉ u.data := by
  have hall : ∀ x ∈ metricUnits, '.' ∉ x.data := by decide
  exact hall u h

lemma weiDesiredTier_false (n : ℕ) :
    weiDesiredTier n false =
      (if 3 < (natRepr (reduceTiers n).1).length then
        (reduceTiers n).2 + (natRepr (reduceTiers n).1).length / 3 -
          (if (natRepr (reduceTiers n).1).length % 3 = 0 then 1 else 0)
      else (reduceTiers n).2) := by
  unfold weiDesiredTier
  dsimp only
  simp only [Bool.false_eq_true, and_false, if_false]

lemma weiDesiredTier_false_ge (n : ℕ) : (reduceTiers n).2 ≤ weiDesiredTier n false := by
  rw [weiDesiredTier_false]
  split_ifs with h1 h2 <;> omega

lemma weiDesiredTier_false_pair {n v p : ℕ} (hvp : reduceTiers n = (v, p)) :
    weiDesiredTier n false =
      (if 3 < (natRepr v).length then
        p + (natRepr v).length / 3 - (if (natRepr v).length % 3 = 0 then 1 else 0)
      else p) := by
  rw [weiDesiredTier_false, hvp]

lemma weiNumberPart_short {n v p : ℕ} {D : List Char}
    (hvp : reduceTiers n = (v, p)) (hDdef : D = natRepr v)
    (hshort : ¬ 3 < D.length) :
    weiDesiredTier n false = p ∧ weiNumberPart n false = D := by
  have hdp : weiDesiredTier n false = p := by
    rw [weiDesiredTier_false_pair hvp, if_neg (hDdef ▸ hshort)]
  refine ⟨hdp, ?_⟩
  have hlenpos : 0 < D.length :=
    List.length_pos_of_ne_nil (hDdef ▸ natRepr_ne_nil v)
  unfold weiNumberPart
  rw [hvp, hdp]
  dsimp only
  rw [← hDdef]
  rw [Nat.sub_self, Nat.mul_zero, List.replicate_zero, List.append_nil]
  rw [sub_self, mul_zero, sub_zero]
  have h1 : ¬ ((D.length : ℤ) ≤ 0) := by exact_mod_cast Nat.not_le.mpr hlenpos
  have h2 : ¬ ((D.length : ℤ) < (D.length : ℤ)) := lt_irrefl _
  rw [if_neg h1, if_neg h2]
  rw [contains_eq_false (hDdef ▸ natRepr_no_dot v), if_neg (by simp)]

lemma weiNumberPart_long {n v p : ℕ} {D : List Char} {len e : ℕ}
    (hvp : reduceTiers n = (v, p)) (hDdef : D = natRepr v) (hlen : len = D.length)
    (he : e = len / 3 - (if len % 3 = 0 then 1 else 0))
    (hlong : 3 < len) :
    1 ≤ e ∧ 3 * e < len ∧ weiDesiredTier n false = p + e ∧
    weiNumberPart n false =
      D.take (len - 3 * e) ++ '.' :: trimTrailingZeros (D.drop (len - 3 * e)) ∧
    trimTrailingZeros (D.drop (len - 3 * e)) ≠ [] := by
  obtain ⟨hval, hred⟩ := reduceTiers_spec n
  rw [hvp] at hval hred
  dsimp only at hval hred
  have he1 : 1 ≤ e := by
    by_cases h3 : len % 3 = 0 <;> simp [he, h3] <;> omega
  have he2 : 3 * e < len := by
    by_cases h3 : len % 3 = 0 <;> simp [he, h3] <;> omega
  have hdpe : weiDesiredTier n false = p + e := by
    rw [weiDesiredTier_false_pair hvp]
    rw [← hDdef, ← hlen]
    rw [if_pos hlong]
    by_cases h3 : len % 3 = 0 <;> simp [he, h3] <;> omega
  have hlow := natRepr_len_lower v
  rw [← hDdef] at hlow
  have hTne : trimTrailingZeros (D.drop (len - 3 * e)) ≠ [] := by
    intro hT
    have hFlen : (D.drop (len - 3 * e)).length = 3 * e := by
      rw [List.length_drop, ← hlen]
      omega
    have hsv0 : strVal (D.drop (len - 3 * e)) = 0 := trim_eq_nil_strVal _ hT
    have hvD := natRepr_strVal v
    rw [← hDdef] at hvD
    have hsplit : strVal D =
        strVal (D.take (len - 3 * e)) * 10 ^ (3 * e) + strVal (D.drop (len - 3 * e)) := by
      conv_lhs => rw [← List.take_append_drop (len - 3 * e) D]
      rw [strVal_append, hFlen]
    have hv : v = strVal (D.take (len - 3 * e)) * 10 ^ (3 * e) := by omega
    have hpow : (10 : ℕ) ^ (3 * e) = 10 ^ (3 * e - 3) * 1000 := by
      have h33 : 3 * e - 3 + 3 = 3 * e := by omega
      rw [← h33, pow_add]
      norm_num
    have hvmod : v % 1000 = 0 := by
      have hfac : v = strVal (D.take (len - 3 * e)) * 10 ^ (3 * e - 3) * 1000 := by
        rw [hv, hpow]
        ring
      omega
    have hge : 1000 ≤ v := by
      rcases hlow with h1 | h1
      · omega
      · have h2 : (10 : ℕ) ^ 3 ≤ 10 ^ (D.length - 1) :=
          Nat.pow_le_pow_right (by omega) (by omega)
        norm_num at h2
        exact le_trans h2 h1
    rcases hred with h1 | h1 <;> omega
  refine ⟨he1, he2, hdpe, ?_, hTne⟩
  unfold weiNumberPart
  rw [hvp, hdpe]
  dsimp only
  rw [← hDdef, ← hlen]
  rw [show p - (p + e) = 0 from by omega, Nat.mul_zero, List.replicate_zero, List.append_nil]
  have hcast : (len : ℤ) - 3 * (((p + e : ℕ) : ℤ) - ((p : ℕ) : ℤ)) = ((len - 3 * e : ℕ) : ℤ) := by
    rw [Nat.cast_sub (by omega)]
    push_cast
    ring
  rw [hcast]
  have hpos : ¬ (((len - 3 * e : ℕ) : ℤ) ≤ 0) := by
    exact_mod_cast Nat.not_le.mpr (show 0 < len - 3 * e by omega)
  have hlt2 : ((len - 3 * e : ℕ) : ℤ) < ((len : ℕ) : ℤ) := by
    exact_mod_cast (show len - 3 * e < len by omega)
  rw [← hlen]
  rw [if_neg hpos, if_pos hlt2]
  rw [Int.toNat_natCast]
  rw [contains_of_mem (List.mem_append_right _ (List.mem_cons_self '.' _)), if_pos rfl]
  have hsingle : D.take (len - 3 * e) ++ '.' :: D.drop (len - 3 * e) =
      D.take (len - 3 * e) ++ (['.'] ++ D.drop (len - 3 * e)) := by simp
  have hdot_trim : trimTrailingZeros (['.'] ++ D.drop (len - 3 * e)) =
      ['.'] ++ trimTrailingZeros (D.drop (len - 3 * e)) := trim_append hTne
  rw [hsingle, trim_append (by rw [hdot_trim]; simp), hdot_trim]
  simp

lemma weiNumberPart_long_ex {n v p : ℕ} {D : List Char} {len : ℕ}
    (hvp : reduceTiers n = (v, p)) (hDdef : D = natRepr v) (hlen : len = D.length)
    (hlong : 3 < len) :
    ∃ e, 1 ≤ e ∧ 3 * e < len ∧ weiDesiredTier n false = p + e ∧
      weiNumberPart n false =
        D.take (len - 3 * e) ++ '.' :: trimTrailingZeros (D.drop (len - 3 * e)) ∧
      trimTrailingZeros (D.drop (len - 3 * e)) ≠ [] :=
  ⟨_, weiNumberPart_long hvp hDdef hlen rfl hlong⟩

/-- C1 counterexample: the round trip fails on 1017. Formatting yields
"1.017 KWei" — a lossless representation of 1017 — but parsing reads the
fraction "017" through the base-0 (legacy octal) rules of
`big.Int.SetString`, contributing 15 instead of 17, so parse(format(1017))
is 1015, not 1017. -/
theorem c1_round_trip_counterexample :
    WeiToString 1017 false = GoResult.ok "1.017 KWei" ∧
    StringToWei "1.017 KWei" = GoResult.ok 1015 ∧
    (1015 : ℤ) ≠ 1017 := by decide

/-- C1 amended: whenever `WeiToString` with standard=false succeeds and
the produced string does not contain a decimal point immediately
followed by the digit 0, parsing it recovers the original Amount
exactly: the formatter only moves the value between exact powers of
ten, and on fractions that do not start with 0 the parser reads decimal
digits and undoes it with exact integer arithmetic. (When the fraction
starts with 0, the parser's base-0 octal reading breaks the round trip,
as the counterexample 1017 shows.) -/
theorem c1_round_trip (n : ℕ) (s : String)
    (h : WeiToString n false = GoResult.ok s)
    (hfrac : ¬ List.IsInfix ['.', '0'] s.data) :
    StringToWei s = GoResult.ok (n : ℤ) := by
  obtain ⟨v, p, hvp⟩ : ∃ v p, reduceTiers n = (v, p) := ⟨_, _, rfl⟩
  obtain ⟨hval, hred⟩ := reduceTiers_spec n
  rw [hvp] at hval hred
  dsimp only at hval hred
  unfold WeiToString at h
  cases hget : metricUnits.get? (weiDesiredTier n false) with
  | none =>
    rw [hget] at h
    cases h
  | some u =>
    rw [hget] at h
    dsimp only at h
    injection h with hs
    subst hs
    have hum : UnitToMultiplier u = some (1000 ^ weiDesiredTier n false) :=
      metric_multiplier hget
    have humem : u ∈ metricUnits := List.get?_mem hget
    have hDdig := natRepr_digits v
    have hvD := natRepr_strVal v
    have hDne := natRepr_ne_nil v
    set D := natRepr v with hDdef
    have hsdata : ((weiNumberPart n false).asString ++ " " ++ u).data =
        weiNumberPart n false ++ ' ' :: u.data := by
      rw [String.data_append, String.data_append, List.append_assoc]
      rfl
    rw [hsdata] at hfrac
    unfold StringToWei
    rw [hsdata]
    by_cases hlong : 3 < D.length
    · -- fractional display: D split around a decimal point
      obtain ⟨e, he1, he2, hdpe, hnum, hTne⟩ := weiNumberPart_long_ex hvp hDdef rfl hlong
      rw [hnum] at hfrac
      have hT0 : (trimTrailingZeros (D.drop (D.length - 3 * e))).headD ' ' ≠ '0' := by
        intro h0
        cases hT : trimTrailingZeros (D.drop (D.length - 3 * e)) with
        | nil => exact hTne hT
        | cons a t =>
          rw [hT] at h0
          simp only [List.headD_cons] at h0
          apply hfrac
          refine ⟨D.take (D.length - 3 * e), t ++ ' ' :: u.data, ?_⟩
          rw [hT, h0]
          simp
      rw [hnum]
      have hIdig : ∀ c ∈ D.take (D.length - 3 * e), goIsDigit c = true :=
        fun c hc => hDdig c (List.take_subset _ _ hc)
      have hTdig : ∀ c ∈ trimTrailingZeros (D.drop (D.length - 3 * e)), goIsDigit c = true :=
        fun c hc => hDdig c (List.drop_subset _ _ (trim_subset _ c hc))
      have hnospace : ' ' ∉ D.take (D.length - 3 * e) ++
          '.' :: trimTrailingZeros (D.drop (D.length - 3 * e)) := by
        intro hmem
        rcases List.mem_append.mp hmem with h1 | h1
        · exact digits_no_space hIdig h1
        · rcases List.mem_cons.mp h1 with h2 | h2
          · exact absurd h2 (by decide)
          · exact digits_no_space hTdig h2
      rw [stringToWeiL_two_tokens hnospace (metric_no_space humem)]
      rw [contains_of_mem (List.mem_append_right _ (List.mem_cons_self '.' _)), if_pos rfl]
      have hIne : D.take (D.length - 3 * e) ≠ [] := by
        have hpos : 0 < (D.take (D.length - 3 * e)).length := by
          rw [List.length_take]
          omega
        exact List.ne_nil_of_length_pos hpos
      have hk : (1000 : ℕ) ^ weiDesiredTier n false = 10 ^ (3 * weiDesiredTier n false) := by
        rw [pow_mul]
        norm_num
      rw [decimalStringToWei_digits hIne hIdig hTdig (by rw [trim_idem]; exact hT0) hum hk]
      rw [trim_idem]
      rw [if_neg hTne]
      have hL3e : (trimTrailingZeros (D.drop (D.length - 3 * e))).length ≤ 3 * e := by
        have h1 := trim_length_le (D.drop (D.length - 3 * e))
        have h2 : (D.drop (D.length - 3 * e)).length = 3 * e := by
          rw [List.length_drop]
          omega
        omega
      have hL : (trimTrailingZeros (D.drop (D.length - 3 * e))).length ≤
          3 * weiDesiredTier n false := by
        have : e ≤ weiDesiredTier n false := by omega
        omega
      rw [if_pos hL]
      dsimp only
      rw [if_neg (not_lt.mpr (by positivity))]
      have hsplit : v = strVal (D.take (D.length - 3 * e)) * 10 ^ (3 * e) +
          strVal (D.drop (D.length - 3 * e)) := by
        have hdl : (D.drop (D.length - 3 * e)).length = 3 * e := by
          rw [List.length_drop]
          omega
        conv_lhs => rw [← hvD, ← List.take_append_drop (D.length - 3 * e) D]
        rw [strVal_append, hdl]
      have hFT : strVal (D.drop (D.length - 3 * e)) =
          strVal (trimTrailingZeros (D.drop (D.length - 3 * e))) *
            10 ^ (3 * e - (trimTrailingZeros (D.drop (D.length - 3 * e))).length) := by
        have hst := strVal_trim (D.drop (D.length - 3 * e))
        have hdl : (D.drop (D.length - 3 * e)).length = 3 * e := by
          rw [List.length_drop]
          omega
        rw [hdl] at hst
        exact hst
      have hnat : strVal (D.take (D.length - 3 * e)) * 10 ^ (3 * (p + e)) +
          10 ^ (3 * (p + e) - (trimTrailingZeros (D.drop (D.length - 3 * e))).length) *
            strVal (trimTrailingZeros (D.drop (D.length - 3 * e))) = n := by
        have e1 : 3 * (p + e) = 3 * e + 3 * p := by ring
        have e2 : 3 * (p + e) - (trimTrailingZeros (D.drop (D.length - 3 * e))).length =
            (3 * e - (trimTrailingZeros (D.drop (D.length - 3 * e))).length) + 3 * p := by
          omega
        rw [e2, e1, pow_add, pow_add]
        have h1000p : (1000 : ℕ) ^ p = 10 ^ (3 * p) := by
          rw [pow_mul]
          norm_num
        rw [hval, h1000p, hsplit, hFT]
        ring
      rw [← hdpe] at hnat
      congr 1
      rw [hk]
      push_cast
      exact_mod_cast hnat
    · -- plain integer display
      obtain ⟨hdp, hnum⟩ := weiNumberPart_short hvp hDdef hlong
      rw [hnum]
      rw [stringToWeiL_two_tokens (digits_no_space hDdig) (metric_no_space humem)]
      rw [contains_eq_false (digits_no_dot hDdig), if_neg (by simp)]
      rw [integerStringToWei_digits hDne hDdig hum]
      dsimp only
      rw [if_neg (not_lt.mpr (by positivity))]
      rw [hdp]
      congr 1
      rw [hvD]
      push_cast
      exact_mod_cast hval.symm

/-- C1 witness: the round trip at 1.5 ether, where formatting uses an
exact fractional display whose fraction starts with a nonzero digit. -/
theorem c1_round_trip_witness :
    WeiToString 1500000000000000000 false = GoResult.ok "1.5 Ether" ∧
    StringToWei "1.5 Ether" = GoResult.ok ((1500000000000000000 : ℕ) : ℤ) :=
  ⟨by decide, c1_round_trip 1500000000000000000 "1.5 Ether" (by decide) (by decide)⟩
